import Mathlib

/-!
Verification development for the conversation message graph and generation
engine of the llama.ui chat client.

The definitions below are a shallow embedding of the TypeScript source:

* `src/src/utils/api.ts` and `src/src/api/inference.ts`
  (`normalizeMsgsForAPI`, `filterThoughtFromMsgs`, `v1ChatCompletions`);
* the conversation context in `src/src/App.tsx`
  (`generateMessage`, `sendMessage`, `stopGenerating`);
* `getListMessageDisplay` / `findLeafNode` from the chat screen
  (`src/unnamed/part_005`, also in `src/src/components/SettingDialog.tsx`).

`StorageUtils` (`filterByLeafNodeId`, `appendMsg`, `createConversation`) is
not part of the available sources; those operations are modelled from the
specification and carry a doc comment saying so.

JavaScript numbers used as message ids are modelled as `Int` (the sentinel
leaf id is `-1`); message maps are modelled as association lookups over the
message list.  Loops over the message graph are modelled with an explicit
fuel argument (the source loops terminate on trees; fuel `msgs.length + 1`
is enough for every acyclic input, and theorems only rely on fuelled runs
that finish before the fuel is exhausted on their hypotheses).
-/

namespace LlamaUi

/-- Role of a message author.  The synthetic conversation root carries the
`root` role (per the data model); API messages additionally use `system`. -/
inductive Role where
  | root
  | system
  | user
  | assistant
deriving DecidableEq, Repr

/-- Node type discriminator carried by every stored message
(`'root' | 'text'` in the source). -/
inductive MsgType where
  | root
  | text
deriving DecidableEq, Repr

/-- Performance timing payload extracted from a stream chunk
(`prompt_n`, `prompt_ms`, `predicted_n`, `predicted_ms`).  The values are
copied through untouched by the code under verification, so they are
modelled as integers. -/
structure Timings where
  prompt_n : Int
  prompt_ms : Int
  predicted_n : Int
  predicted_ms : Int
deriving DecidableEq, Repr

/-- Attachment descriptor attached to a user message (`Message.extra`).
The four recognized kinds follow the discrimination in
`normalizeMsgsForAPI`; `unknown` stands for any other discriminant value
reaching the `else` branch (the TypeScript type is open to future kinds). -/
inductive MessageExtra where
  | context (content : String)
  | textFile (name : String) (content : String)
  | imageFile (base64Url : String)
  | audioFile (base64Data : String) (mimeType : String)
  | unknown (tag : String)
deriving DecidableEq, Repr

/-- A persisted message node of the conversation graph
(`Message` in `utils/types.ts`): `content` is a `string` for stored
messages; `parent` is `null` only for the root. -/
structure Message where
  id : Int
  convId : String
  type : MsgType
  timestamp : Int
  role : Role
  content : String
  extra : Option (List MessageExtra) := none
  parent : Option Int := none
  children : List Int := []
  model : Option String := none
  timings : Option Timings := none
deriving DecidableEq, Repr

/-- The in-flight draft of a generation session
(`PendingMessage`, a `Message` whose `content` may still be `null`). -/
structure PendingMsg where
  id : Int
  convId : String
  type : MsgType
  timestamp : Int
  role : Role
  content : Option String
  parent : Option Int := none
  children : List Int := []
  model : Option String := none
  timings : Option Timings := none
deriving DecidableEq, Repr

/-- Casting an in-flight draft into a persisted message
(the `pendingMsg as Message` cast performed by `appendMsg`); used only when
`content` is non-null, in which case `getD` is exact. -/
def PendingMsg.asMessage (p : PendingMsg) : Message :=
  { id := p.id, convId := p.convId, type := p.type, timestamp := p.timestamp,
    role := p.role, content := p.content.getD "", extra := none,
    parent := p.parent, children := p.children, model := p.model,
    timings := p.timings }

/-- One content part of an outbound API message
(`APIMessageContentPart` in `utils/api.ts`). -/
inductive APIMessageContentPart where
  | text (text : String)
  | image_url (url : String)
  | input_audio (data : String) (format : String)
deriving DecidableEq, Repr

/-- Content of an outbound API message: either a plain string (possibly the
`null` content of a draft passed through unchanged) or a content-part list. -/
inductive APIContent where
  | str (s : String)
  | parts (l : List APIMessageContentPart)
deriving DecidableEq, Repr

/-- An outbound API message (`APIMessage` in `utils/api.ts`). -/
structure APIMessage where
  role : Role
  content : APIContent
deriving DecidableEq, Repr

deriving instance DecidableEq for Except

/-- Does the first character list lead the second one (needle at the head
of the haystack). -/
def charListLeads : List Char → List Char → Bool
  | [], _ => true
  | _ :: _, [] => false
  | a :: as, b :: bs => a = b && charListLeads as bs

/-- Does the needle occur anywhere inside the haystack. -/
def charListInside (needle : List Char) : List Char → Bool
  | [] => charListLeads needle []
  | c :: t => charListLeads needle (c :: t) || charListInside needle t

/-- The regex test `/wav/.test(mimeType)`: does the MIME type contain the
substring `wav` (decided on the character lists, so that the kernel can
evaluate it on concrete inputs). -/
def testWav (mimeType : String) : Bool :=
  charListInside "wav".toList mimeType.toList

/-- JavaScript `String.prototype.trim`: whitespace stripped from both ends
(modelled on the character list, so that the kernel can evaluate it). -/
def jsTrim (s : String) : String :=
  String.mk
    (((s.toList.dropWhile Char.isWhitespace).reverse.dropWhile
        Char.isWhitespace).reverse)

/-- Expansion of one attachment into one content part, following the body of
the `for` loop of `normalizeMsgsForAPI`; the unrecognized kind reproduces
the `throw new Error` branch. -/
def extraToPart : MessageExtra → Except String APIMessageContentPart
  | .context content => .ok (.text content)
  | .textFile name content =>
      .ok (.text ("File: " ++ name ++ "\nContent:\n\n" ++ content))
  | .imageFile base64Url => .ok (.image_url base64Url)
  | .audioFile base64Data mimeType =>
      .ok (.input_audio base64Data (if testWav mimeType then "wav" else "mp3"))
  | .unknown _ => .error "Unknown extra type"

/-- Normalization of a single application message for the API, following
`normalizeMsgsForAPI` (identical in `src/src/utils/api.ts` and
`src/src/api/inference.ts`): non-user messages and messages without an
`extra` field pass through; user messages with attachments expand every
attachment first and append the user text as the trailing text part. -/
def normalizeMsgForAPI (msg : Message) : Except String APIMessage :=
  match msg.extra with
  | none => .ok { role := msg.role, content := .str msg.content }
  | some extras =>
      if msg.role ≠ .user then
        .ok { role := msg.role, content := .str msg.content }
      else do
        let contentArr ← extras.mapM extraToPart
        .ok { role := msg.role,
              content := .parts (contentArr ++ [.text msg.content]) }

/-- Normalization of a message list for the API (`normalizeMsgsForAPI`):
the JavaScript `messages.map` aborts wholesale when the callback throws,
which the `Except` monad reproduces. -/
def normalizeMsgsForAPI (messages : List Message) : Except String (List APIMessage) :=
  messages.mapM normalizeMsgForAPI

/-- The JavaScript truthy-or `a || b` on an optional string: the fallback is
used when the field is missing or the empty string. -/
def jsOrString (a : Option String) (b : String) : String :=
  match a with
  | some s => if s = "" then b else s
  | none => b

/-- Removal of thought content from assistant messages
(`filterThoughtFromMsgs` in `src/src/utils/api.ts`): assistant content is
split at `</think>` and only the final segment is kept, trimmed.  The source
notes that assistant content is always a plain string, so part-list content
is passed through unchanged. -/
def filterThoughtFromMsgs (messages : List APIMessage) : List APIMessage :=
  messages.map fun msg =>
    if msg.role ≠ .assistant then msg
    else
      match msg.content with
      | .str contentStr =>
          { role := msg.role,
            content := .str ((((contentStr.splitOn "</think>").getLast?).getD "").trim) }
      | .parts l => { role := msg.role, content := .parts l }

/-- Outbound message-list construction of `generateMessage` in
`src/src/App.tsx` (lines 372-381): the configured system message is placed
first exactly when it is non-empty, followed by the normalized current
messages; the thought filter applies when configured. -/
def appPromptMessages (systemMessage : String) (excludeThoughtOnReq : Bool)
    (currMessages : List Message) : Except String (List APIMessage) := do
  let norm ← normalizeMsgsForAPI currMessages
  let messages :=
    (if systemMessage.length = 0 then []
     else [({ role := .system, content := .str systemMessage } : APIMessage)]) ++ norm
  .ok (if excludeThoughtOnReq then filterThoughtFromMsgs messages else messages)

/-- Outbound message-list construction of `ApiProvider.v1ChatCompletions` in
`src/src/utils/api.ts` (lines 302-314), embedded exactly as written: the
condition there pushes the system message when `systemMessage.length === 0`. -/
def v1ChatCompletionsMessages (systemMessage : String) (excludeThoughtOnReq : Bool)
    (messages : List Message) : Except String (List APIMessage) := do
  let base :=
    (if systemMessage.length = 0 then
      [({ role := .system, content := .str systemMessage } : APIMessage)]
     else [])
  let norm ← normalizeMsgsForAPI messages
  let apiMessages := base ++ norm
  .ok (if excludeThoughtOnReq then filterThoughtFromMsgs apiMessages else apiMessages)

/-- Lookup of a message by id, modelling `nodeMap.get(id)` where the map is
built from the message list (ids are unique in a well-formed conversation,
so first match and last insertion coincide). -/
def findById (msgs : List Message) (i : Int) : Option Message :=
  msgs.find? fun m => m.id = i

/-- The single synthetic root of a conversation (the node with `type` root). -/
def findRoot (msgs : List Message) : Option Message :=
  msgs.find? fun m => m.type = .root

/-- Modelled from the spec: the last-child-following rule of §4.1 — starting
from a node, repeatedly follow the last entry of `children` until a node
with no children is reached.  A dangling child pointer yields `none`. -/
def lastChildDescent (msgs : List Message) : Nat → Option Message → Option Message
  | _, none => none
  | 0, some m => some m
  | fuel + 1, some m =>
      match m.children.getLast? with
      | none => some m
      | some c => lastChildDescent msgs fuel (findById msgs c)

/-- Modelled from the spec: the upward walk of §4.1 — from the effective
leaf, follow `parentId` until the root (whose parent is `null`) or until a
dangling parent pointer stops the walk. -/
def walkUp (msgs : List Message) : Nat → Option Message → List Message
  | _, none => []
  | 0, some m => [m]
  | fuel + 1, some m =>
      match m.parent with
      | none => [m]
      | some p => m :: walkUp msgs fuel (findById msgs p)

/-- Modelled from the spec: `StorageUtils.filterByLeafNodeId` (the display
path resolution of §4.1, called by `getListMessageDisplay`).  The requested
leaf id is used when present; a missing id (in particular the sentinel `-1`,
meaning most recent) falls back to the last-child descent from the root.
The path is the upward walk reversed into root-to-leaf order; the root is
kept only when `includeRoot` is set. -/
def filterByLeafNodeId (msgs : List Message) (leafNodeId : Int)
    (includeRoot : Bool) : List Message :=
  let fuel := msgs.length + 1
  let effLeaf : Option Message :=
    match findById msgs leafNodeId with
    | some m => some m
    | none => lastChildDescent msgs fuel (findRoot msgs)
  let path := (walkUp msgs fuel effLeaf).reverse
  if includeRoot then path else path.filter fun m => m.type ≠ .root

/-- The loop body of `findLeafNode` in `getListMessageDisplay`
(`src/unnamed/part_005` lines 29-36): while the current node exists and has
children, move to `nodeMap.get(children.at(-1) ?? -1)`. -/
def findLeafNodeAux (msgs : List Message) : Nat → Option Message → Option Message
  | _, none => none
  | 0, some m => some m
  | fuel + 1, some m =>
      if m.children = [] then some m
      else findLeafNodeAux msgs fuel (findById msgs (m.children.getLast?.getD (-1)))

/-- `findLeafNode` from `getListMessageDisplay`: the id of the deepest tip
reached by following last children, `-1` when the walk runs off the map
(`currNode?.id ?? -1`). -/
def findLeafNode (msgs : List Message) (msgId : Int) : Int :=
  match findLeafNodeAux msgs (msgs.length + 1) (findById msgs msgId) with
  | some m => m.id
  | none => -1

/-- JavaScript `Array.prototype.indexOf`: index of the first occurrence, or
`-1` when absent. -/
def jsIndexOf (l : List Int) (x : Int) : Int :=
  match l.findIdx? fun y => y = x with
  | some i => (i : Int)
  | none => -1

/-- One entry of the displayed conversation path (`MessageDisplay`). -/
structure MessageDisplay where
  msg : Message
  siblingLeafNodeIds : List Int
  siblingCurrIdx : Int
deriving DecidableEq, Repr

/-- `getListMessageDisplay` (`src/unnamed/part_005` lines 18-51, identical
in `src/src/components/SettingDialog.tsx`): resolve the display path, then
for each node on it look up its parent — a node whose parent is absent from
the map is skipped (`if (!parentNode) continue`) — and emit the node with
its sibling ids mapped through `findLeafNode` and its index among them;
nodes of type `root` are dropped. -/
def getListMessageDisplay (msgs : List Message) (leafNodeId : Int) :
    List MessageDisplay :=
  let currNodes := filterByLeafNodeId msgs leafNodeId true
  currNodes.filterMap fun msg =>
    match findById msgs (msg.parent.getD (-1)) with
    | none => none
    | some parentNode =>
        if msg.type ≠ .root then
          some { msg := msg,
                 siblingLeafNodeIds := parentNode.children.map (findLeafNode msgs),
                 siblingCurrIdx := jsIndexOf parentNode.children msg.id }
        else none

/-- One decoded SSE chunk as consumed by the streaming loop of
`generateMessage` (`src/src/App.tsx` lines 447-475): an optional error frame
(with its optional `message` field), the incremental text
`choices[0].delta.content`, an optional model identifier, and an optional
timing snapshot. -/
structure ChunkDelta where
  error : Option (Option String) := none
  content : Option String := none
  model : Option String := none
  timings : Option Timings := none
deriving DecidableEq, Repr

/-- The non-error part of the loop body: truthy incremental text is appended
to the accumulated content (`(pendingMsg.content || '') + addedContent`), a
truthy model identifier overwrites the stored one, and a timing payload is
replaced wholesale. -/
def applyChunk (p : PendingMsg) (c : ChunkDelta) : PendingMsg :=
  let p1 :=
    match c.content with
    | some added => if added ≠ "" then { p with content := some (p.content.getD "" ++ added) } else p
    | none => p
  let p2 :=
    match c.model with
    | some m => if m ≠ "" then { p1 with model := some m } else p1
    | none => p1
  match c.timings with
  | some t => { p2 with timings := some t }
  | none => p2

/-- The streaming loop over the delivered chunks: each successfully handled
chunk republishes the draft (`setPending`), an error frame throws
`chunk.error?.message || 'Unknown error'` and stops consumption.  Returns
the published draft states in order together with the final accumulator or
the thrown error. -/
def consumeChunks (p : PendingMsg) :
    List ChunkDelta → List PendingMsg × Except String PendingMsg
  | [] => ([], .ok p)
  | c :: rest =>
      match c.error with
      | some em => ([], .error (jsOrString em "Unknown error"))
      | none =>
          let p2 := applyChunk p c
          let res := consumeChunks p2 rest
          (p2 :: res.1, res.2)

/-- A conversation descriptor (`Conversation` in `utils/types.ts`). -/
structure Conversation where
  id : String
  name : String
  currNode : Int
deriving DecidableEq, Repr

/-- The controller state visible to the embedded operations: the persisted
conversations and messages, and the per-conversation pending-draft map. -/
structure AppState where
  convs : List Conversation
  msgs : List Message
  pending : List (String × PendingMsg)
deriving DecidableEq, Repr

/-- `isGenerating(convId)`: whether a pending draft exists for the
conversation (`!!pendingMessages[convId]`). -/
def isGenerating (st : AppState) (convId : String) : Bool :=
  (st.pending.find? fun kv => kv.1 = convId).isSome

/-- Modelled from the spec: the Message Store operation
`appendMessage(msg, afterId)` of §6 registers `msg` as a child of `afterId`
(children are ordered by creation time, so the new id is appended at the
end) and adds the message to the store. -/
def appendMsgStore (msgs : List Message) (msg : Message) (afterId : Int) :
    List Message :=
  (msgs.map fun m =>
    if m.id = afterId then { m with children := m.children ++ [msg.id] } else m)
  ++ [msg]

/-- Modelled from the spec: the Message Store operation
`listMessages(convId)` of §6 — all messages of one conversation. -/
def convMessages (st : AppState) (convId : String) : List Message :=
  st.msgs.filter fun m => m.convId = convId

/-- Modelled from the spec: `StorageUtils.createConversation(name)` creates
a new conversation (named from the truncated text) together with its single
synthetic root node, and points `currNode` at the root. -/
def createConversation (st : AppState) (name : String) (freshConvId : String)
    (rootId : Int) : Conversation × AppState :=
  let root : Message :=
    { id := rootId, convId := freshConvId, type := .root, timestamp := rootId,
      role := .root, content := "", parent := none, children := [] }
  let conv : Conversation := { id := freshConvId, name := name, currNode := rootId }
  (conv, { st with convs := st.convs ++ [conv], msgs := st.msgs ++ [root] })

/-- How the chunk stream of one generation session terminates after the
delivered chunks: natural close, an `AbortError` raised by the caller's
cancellation (`stopGenerating`), or a transport failure (a non-200 response
or a mid-stream network error, carrying the reported message). -/
inductive StreamClose where
  | closed
  | aborted
  | transportFail (message : String)
deriving DecidableEq, Repr

/-- The observable behaviour of the network stream backing one generation
session: the chunks delivered before termination and the termination kind. -/
structure GenRun where
  chunks : List ChunkDelta
  ending : StreamClose
deriving DecidableEq, Repr

/-- The freshly seeded draft of one generation session (`pendingMsg` before
the loop: `null` content, assistant role, parented at the attach leaf). -/
def initialPending (convId : String) (leafNodeId pendingId : Int) : PendingMsg :=
  { id := pendingId, convId := convId, type := .text, timestamp := pendingId,
    role := .assistant, content := none, parent := some leafNodeId,
    children := [] }

/-- Result of one `generateMessage` call: the controller state after the
call (the pending entry is cleared on every path), the draft states
published to observers in order, and the error rethrown to the caller, if
any. -/
structure GenOutcome where
  state : AppState
  published : List PendingMsg
  thrown : Option String
deriving DecidableEq, Repr

/-- `generateMessage` (`src/src/App.tsx` lines 333-496): a silent return
when a session is already active; an error when the conversation is
missing; otherwise the draft is seeded with `null` content and published,
the prompt is built (a normalization throw is caught, retracts the draft
and is rethrown before any request is issued), the chunks are consumed, and
then: an error frame or a transport failure retracts the draft and
rethrows, while a natural close or a caller abort commits the accumulated
draft via `appendMsg` under the attach leaf `provided its content is
non-null` (`if (pendingMsg.content !== null)`). -/
def generateMessage (cfg_systemMessage : String) (cfg_excludeThoughtOnReq : Bool)
    (st : AppState) (convId : String) (leafNodeId : Int) (pendingId : Int)
    (run : GenRun) : GenOutcome :=
  if isGenerating st convId then { state := st, published := [], thrown := none }
  else
    match st.convs.find? fun c => c.id = convId with
    | none =>
        { state := st, published := [],
          thrown := some "Current conversation is not found" }
    | some _ =>
        let currMessages := filterByLeafNodeId (convMessages st convId) leafNodeId false
        let pendingMsg0 : PendingMsg := initialPending convId leafNodeId pendingId
        match appPromptMessages cfg_systemMessage cfg_excludeThoughtOnReq currMessages with
        | .error e => { state := st, published := [pendingMsg0], thrown := some e }
        | .ok _ =>
            let consumed := consumeChunks pendingMsg0 run.chunks
            match consumed.2 with
            | .error e =>
                { state := st, published := pendingMsg0 :: consumed.1,
                  thrown := some e }
            | .ok pF =>
                match run.ending with
                | .transportFail e =>
                    { state := st, published := pendingMsg0 :: consumed.1,
                      thrown := some e }
                | _ =>
                    match pF.content with
                    | some _ =>
                        { state := { st with
                            msgs := appendMsgStore st.msgs pF.asMessage leafNodeId },
                          published := pendingMsg0 :: consumed.1, thrown := none }
                    | none =>
                        { state := st, published := pendingMsg0 :: consumed.1,
                          thrown := none }

/-- `stopGenerating` (`src/src/App.tsx` lines 546-549): the pending draft is
retracted immediately and the abort controller is signalled; the running
session then observes the abort as `GenRun.ending = .aborted`. -/
def stopGenerating (st : AppState) (convId : String) : AppState :=
  { st with pending := st.pending.filter fun kv => kv.1 ≠ convId }

/-- Result of one `sendMessage` call. -/
structure SendOutcome where
  accepted : Bool
  state : AppState
  published : List PendingMsg
deriving DecidableEq, Repr

/-- `sendMessage` (`src/src/App.tsx` lines 498-544): rejected up front when
a session is active for the target conversation or the text trims to
nothing; a missing or empty conversation id or a missing leaf creates a new
conversation; the user message is appended under the resolved leaf; then
`generateMessage` runs attached to the new user message, a rethrown error
being caught and turned into a `false` return with no rollback of the user
message. -/
def sendMessage (cfg_systemMessage : String) (cfg_excludeThoughtOnReq : Bool)
    (st : AppState) (convId : Option String) (leafNodeId : Option Int)
    (content : String) (extra : Option (List MessageExtra)) (now : Int)
    (freshConvId : String) (rootId : Int) (pendingId : Int) (run : GenRun) :
    SendOutcome :=
  if isGenerating st (convId.getD "") || (jsTrim content).length = 0 then
    { accepted := false, state := st, published := [] }
  else
    let resolved :=
      if convId.isNone || (convId.getD "").length = 0 || leafNodeId.isNone then
        let created := createConversation st (content.take 256) freshConvId rootId
        (created.1.id, created.1.currNode, created.2)
      else (convId.getD "", leafNodeId.getD (-1), st)
    let cid := resolved.1
    let leaf := resolved.2.1
    let st1 := resolved.2.2
    let userMsg : Message :=
      { id := now, convId := cid, type := .text, timestamp := now,
        role := .user, content := content, extra := extra,
        parent := some leaf, children := [] }
    let st2 := { st1 with msgs := appendMsgStore st1.msgs userMsg leaf }
    let g := generateMessage cfg_systemMessage cfg_excludeThoughtOnReq st2 cid now pendingId run
    match g.thrown with
    | some _ => { accepted := false, state := g.state, published := g.published }
    | none => { accepted := true, state := g.state, published := g.published }

/-! ## Theorems -/

/-- A concrete one-message conversation used in several concrete theorems. -/
def sampleUserMsg : Message :=
  { id := 1, convId := "c", type := .text, timestamp := 1, role := .user,
    content := "hi", extra := none, parent := some 0, children := [] }

/-- C4: the outbound list of `ApiProvider.v1ChatCompletions` omits the
system message when the configured instruction is non-empty and instead
prepends an empty system message when the instruction is empty — the
inverse of the claimed behaviour, which `generateMessage` in
`src/src/App.tsx` implements: evaluated at a concrete one-message prompt
with a non-empty instruction, `v1ChatCompletionsMessages` yields no system
message while `appPromptMessages` yields exactly the claimed system-first
list; with the empty instruction `v1ChatCompletionsMessages` emits a
spurious empty system message. -/
theorem v1ChatCompletions_system_message_inverted :
    v1ChatCompletionsMessages "Be helpful." false [sampleUserMsg] =
      .ok [{ role := .user, content := .str "hi" }] ∧
    appPromptMessages "Be helpful." false [sampleUserMsg] =
      .ok [{ role := .system, content := .str "Be helpful." },
           { role := .user, content := .str "hi" }] ∧
    v1ChatCompletionsMessages "" false [sampleUserMsg] =
      .ok [{ role := .system, content := .str "" },
           { role := .user, content := .str "hi" }] := by
  refine ⟨?_, ?_, ?_⟩ <;> rfl

/-- The per-kind expansion required by claim C3 for recognized attachments:
context text inlined as-is, text file inlined with a filename header, image
as an image reference, audio as base64 payload tagged `wav` when the MIME
type matches `/wav/` and `mp3` otherwise. -/
inductive AttachmentExpands : MessageExtra → APIMessageContentPart → Prop where
  | context (content : String) :
      AttachmentExpands (.context content) (.text content)
  | textFile (name content : String) :
      AttachmentExpands (.textFile name content)
        (.text ("File: " ++ name ++ "\nContent:\n\n" ++ content))
  | imageFile (url : String) :
      AttachmentExpands (.imageFile url) (.image_url url)
  | audioWav (data mimeType : String) (h : testWav mimeType = true) :
      AttachmentExpands (.audioFile data mimeType) (.input_audio data "wav")
  | audioMp3 (data mimeType : String) (h : testWav mimeType = false) :
      AttachmentExpands (.audioFile data mimeType) (.input_audio data "mp3")

theorem extraToPart_ok_iff {e : MessageExtra} {p : APIMessageContentPart} :
    extraToPart e = .ok p ↔ AttachmentExpands e p := by
  constructor
  · intro h
    cases e with
    | context content =>
        cases h; exact .context content
    | textFile name content =>
        cases h; exact .textFile name content
    | imageFile url =>
        cases h; exact .imageFile url
    | audioFile data mimeType =>
        by_cases hw : testWav mimeType = true
        · rw [extraToPart, if_pos hw] at h
          cases h; exact .audioWav data mimeType hw
        · rw [extraToPart, if_neg hw] at h
          cases h; exact .audioMp3 data mimeType (by simpa using hw)
    | unknown tag => cases h
  · intro h
    cases h with
    | context content => rfl
    | textFile name content => rfl
    | imageFile url => rfl
    | audioWav data mimeType hw => rw [extraToPart, if_pos hw]
    | audioMp3 data mimeType hw => rw [extraToPart, if_neg (by simp [hw])]

theorem mapM_extraToPart_of_expands {l : List MessageExtra}
    (h : ∀ e ∈ l, ∃ p, AttachmentExpands e p) :
    ∃ parts, l.mapM extraToPart = .ok parts ∧
      List.Forall₂ AttachmentExpands l parts := by
  induction l with
  | nil => exact ⟨[], List.mapM_nil (f := extraToPart), .nil⟩
  | cons a l ih =>
      obtain ⟨p, hp⟩ := h a (by simp)
      obtain ⟨parts, hps, hrel⟩ := ih fun e he => h e (by simp [he])
      refine ⟨p :: parts, ?_, .cons hp hrel⟩
      rw [List.mapM_cons (f := extraToPart), extraToPart_ok_iff.mpr hp, hps]
      rfl

/-- C3: for a user message carrying attachments, the normalized content
list is the attachment parts first, in attachment list order and expanded
per kind as `AttachmentExpands` states, followed by exactly one trailing
text part holding the user text. -/
theorem normalizeMsgForAPI_attachments_before_text
    (msg : Message) (l : List MessageExtra)
    (hrole : msg.role = .user) (hextra : msg.extra = some l)
    (hrec : ∀ e ∈ l, ∃ p, AttachmentExpands e p) :
    ∃ parts, normalizeMsgForAPI msg =
        .ok { role := .user, content := .parts (parts ++ [.text msg.content]) } ∧
      List.Forall₂ AttachmentExpands l parts := by
  obtain ⟨parts, hps, hrel⟩ := mapM_extraToPart_of_expands hrec
  refine ⟨parts, ?_, hrel⟩
  rw [normalizeMsgForAPI, hextra]
  dsimp only
  rw [if_neg (by simp [hrole]), hps, hrole]
  rfl

/-- A user message with one attachment of every recognized kind. -/
def wAttachMsg : Message :=
  { id := 7, convId := "c", type := .text, timestamp := 7, role := .user,
    content := "please look", parent := some 0, children := [],
    extra := some [.context "ctx", .textFile "a.txt" "T", .imageFile "img",
                   .audioFile "AAA" "audio/wav", .audioFile "BBB" "audio/mpeg"] }

theorem normalizeMsgForAPI_attachments_before_text_witness :
    ∃ parts, normalizeMsgForAPI wAttachMsg =
        .ok { role := .user,
              content := .parts (parts ++ [.text wAttachMsg.content]) } ∧
      List.Forall₂ AttachmentExpands [.context "ctx", .textFile "a.txt" "T",
        .imageFile "img", .audioFile "AAA" "audio/wav",
        .audioFile "BBB" "audio/mpeg"] parts :=
  normalizeMsgForAPI_attachments_before_text wAttachMsg _ rfl rfl (by
    intro e he
    simp only [List.mem_cons, List.not_mem_nil, or_false] at he
    rcases he with h | h | h | h | h
    · exact h ▸ ⟨_, .context "ctx"⟩
    · exact h ▸ ⟨_, .textFile "a.txt" "T"⟩
    · exact h ▸ ⟨_, .imageFile "img"⟩
    · exact h ▸ ⟨_, .audioWav "AAA" "audio/wav" (by decide)⟩
    · exact h ▸ ⟨_, .audioMp3 "BBB" "audio/mpeg" (by decide)⟩)

theorem extraToPart_ok_or_unknown (e : MessageExtra) :
    (∃ p, extraToPart e = .ok p) ∨ extraToPart e = .error "Unknown extra type" := by
  cases e with
  | context content => exact .inl ⟨_, rfl⟩
  | textFile name content => exact .inl ⟨_, rfl⟩
  | imageFile url => exact .inl ⟨_, rfl⟩
  | audioFile data mimeType => exact .inl ⟨_, rfl⟩
  | unknown tag => exact .inr rfl

theorem mapM_extraToPart_unknown {l : List MessageExtra} {tag : String}
    (h : MessageExtra.unknown tag ∈ l) :
    l.mapM extraToPart = .error "Unknown extra type" := by
  induction l with
  | nil => cases h
  | cons a l ih =>
      rw [List.mapM_cons (f := extraToPart)]
      rcases List.mem_cons.mp h with h | h
      · rw [← h]; rfl
      · rcases extraToPart_ok_or_unknown a with ⟨p, hp⟩ | hp
        · rw [hp, ih h]; rfl
        · rw [hp]; rfl

theorem mapM_extraToPart_ok_or_unknown (l : List MessageExtra) :
    (∃ ps, l.mapM extraToPart = .ok ps) ∨
      l.mapM extraToPart = .error "Unknown extra type" := by
  induction l with
  | nil => exact .inl ⟨[], List.mapM_nil (f := extraToPart)⟩
  | cons a l ih =>
      rw [List.mapM_cons (f := extraToPart)]
      rcases extraToPart_ok_or_unknown a with ⟨p, hp⟩ | hp
      · rcases ih with ⟨ps, hps⟩ | hps
        · exact .inl ⟨p :: ps, by rw [hp, hps]; rfl⟩
        · refine .inr ?_; rw [hp, hps]; rfl
      · refine .inr ?_; rw [hp]; rfl

theorem normalizeMsgForAPI_unknown {msg : Message} {l : List MessageExtra}
    {tag : String} (hrole : msg.role = .user) (hextra : msg.extra = some l)
    (hmem : MessageExtra.unknown tag ∈ l) :
    normalizeMsgForAPI msg = .error "Unknown extra type" := by
  rw [normalizeMsgForAPI, hextra]
  dsimp only
  rw [if_neg (by simp [hrole]), mapM_extraToPart_unknown hmem]
  rfl

theorem normalizeMsgForAPI_ok_or_unknown (msg : Message) :
    (∃ a, normalizeMsgForAPI msg = .ok a) ∨
      normalizeMsgForAPI msg = .error "Unknown extra type" := by
  rw [normalizeMsgForAPI]
  cases hx : msg.extra with
  | none => exact .inl ⟨_, rfl⟩
  | some l =>
      dsimp only
      by_cases hr : msg.role ≠ .user
      · rw [if_pos hr]; exact .inl ⟨_, rfl⟩
      · rw [if_neg hr]
        rcases mapM_extraToPart_ok_or_unknown l with ⟨ps, hps⟩ | hps
        · exact .inl ⟨_, by rw [hps]; rfl⟩
        · refine .inr ?_; rw [hps]; rfl

theorem normalizeMsgsForAPI_unknown {msgs : List Message} {msg : Message}
    (hmem : msg ∈ msgs)
    (hbad : normalizeMsgForAPI msg = .error "Unknown extra type") :
    normalizeMsgsForAPI msgs = .error "Unknown extra type" := by
  rw [normalizeMsgsForAPI]
  induction msgs with
  | nil => cases hmem
  | cons a l ih =>
      rw [List.mapM_cons (f := normalizeMsgForAPI)]
      rcases List.mem_cons.mp hmem with h | h
      · rw [← h, hbad]; rfl
      · rcases normalizeMsgForAPI_ok_or_unknown a with ⟨x, hx⟩ | hx
        · rw [hx, ih h]; rfl
        · rw [hx]; rfl

theorem appPromptMessages_error {sysMsg : String} {excl : Bool}
    {msgs : List Message} {e : String}
    (h : normalizeMsgsForAPI msgs = .error e) :
    appPromptMessages sysMsg excl msgs = .error e := by
  rw [appPromptMessages, h]
  rfl

/-- C8: a user message with an unrecognized attachment kind makes prompt
normalization fail with `Unknown extra type`, and a `generateMessage` call
whose current messages contain such a message rethrows exactly that error
with the store untouched and the result independent of the network stream
(the request is never issued). -/
theorem normalize_unknown_extra_aborts
    (sysMsg : String) (excl : Bool) (st : AppState) (convId : String)
    (leafNodeId pendingId : Int) (run : GenRun)
    (msg : Message) (l : List MessageExtra) (tag : String)
    (hgen : isGenerating st convId = false)
    (hconv : (st.convs.find? fun c => c.id = convId).isSome = true)
    (hrole : msg.role = .user) (hextra : msg.extra = some l)
    (hmem : MessageExtra.unknown tag ∈ l)
    (hpath : msg ∈ filterByLeafNodeId (convMessages st convId) leafNodeId false) :
    (generateMessage sysMsg excl st convId leafNodeId pendingId run).state = st ∧
    (generateMessage sysMsg excl st convId leafNodeId pendingId run).thrown =
      some "Unknown extra type" ∧
    ∀ run2, generateMessage sysMsg excl st convId leafNodeId pendingId run =
      generateMessage sysMsg excl st convId leafNodeId pendingId run2 := by
  have hbad : normalizeMsgsForAPI
      (filterByLeafNodeId (convMessages st convId) leafNodeId false) =
      .error "Unknown extra type" :=
    normalizeMsgsForAPI_unknown hpath (normalizeMsgForAPI_unknown hrole hextra hmem)
  obtain ⟨c, hc⟩ := Option.isSome_iff_exists.mp hconv
  have key : ∀ r2 : GenRun,
      generateMessage sysMsg excl st convId leafNodeId pendingId r2 =
      { state := st,
        published := [initialPending convId leafNodeId pendingId],
        thrown := some "Unknown extra type" } := by
    intro r2
    rw [generateMessage, if_neg (by simp [hgen]), hc]
    dsimp only
    rw [appPromptMessages_error hbad]
  refine ⟨by rw [key run], by rw [key run], fun r2 => by rw [key run, key r2]⟩

/-- A two-node conversation whose user message carries an attachment of an
unrecognized kind. -/
def wRoot : Message :=
  { id := 0, convId := "c", type := .root, timestamp := 0, role := .root,
    content := "", parent := none, children := [1] }

def wBadMsg : Message :=
  { id := 1, convId := "c", type := .text, timestamp := 1, role := .user,
    content := "look", extra := some [.unknown "video"], parent := some 0,
    children := [] }

def wBadState : AppState :=
  { convs := [{ id := "c", name := "c", currNode := 0 }],
    msgs := [wRoot, wBadMsg], pending := [] }

theorem normalize_unknown_extra_aborts_witness :
    (generateMessage "" false wBadState "c" 1 2
        { chunks := [], ending := .closed }).state = wBadState ∧
    (generateMessage "" false wBadState "c" 1 2
        { chunks := [], ending := .closed }).thrown =
      some "Unknown extra type" ∧
    ∀ run2, generateMessage "" false wBadState "c" 1 2
        { chunks := [], ending := .closed } =
      generateMessage "" false wBadState "c" 1 2 run2 :=
  normalize_unknown_extra_aborts "" false wBadState "c" 1 2
    { chunks := [], ending := .closed } wBadMsg [.unknown "video"] "video"
    (by decide) (by decide) (by decide) (by decide) (by decide) (by decide)

/-- The store contains a message with the given core fields (`children` is
deliberately not constrained: registering a later child under a node only
touches its `children` list). -/
def containsMsgCore (msgs : List Message) (i : Int) (r : Role) (c : String)
    (p : Option Int) : Prop :=
  ∃ m ∈ msgs, m.id = i ∧ m.role = r ∧ m.content = c ∧ m.parent = p

theorem containsMsgCore_appendMsgStore {msgs : List Message} {msg : Message}
    {afterId : Int} {i : Int} {r : Role} {c : String} {p : Option Int}
    (h : containsMsgCore msgs i r c p) :
    containsMsgCore (appendMsgStore msgs msg afterId) i r c p := by
  obtain ⟨m, hm, h1, h2, h3, h4⟩ := h
  refine ⟨if m.id = afterId then { m with children := m.children ++ [msg.id] }
          else m, ?_, ?_⟩
  · exact List.mem_append_left _ (List.mem_map_of_mem _ hm)
  · by_cases hid : m.id = afterId
    · simp only [if_pos hid]
      exact ⟨h1, h2, h3, h4⟩
    · simp only [if_neg hid]
      exact ⟨h1, h2, h3, h4⟩

theorem containsMsgCore_self (msgs : List Message) (msg : Message)
    (afterId : Int) :
    containsMsgCore (appendMsgStore msgs msg afterId) msg.id msg.role
      msg.content msg.parent :=
  ⟨msg, List.mem_append_right _ (List.mem_singleton.mpr rfl), rfl, rfl, rfl, rfl⟩

/-- Whatever branch a `generateMessage` call takes, a message already
present in the store (identified by its core fields) is still present
afterwards: the session appends, it never rewrites or removes. -/
theorem generateMessage_preserves_core (sysMsg : String) (excl : Bool)
    (st : AppState) (convId : String) (leafNodeId pendingId : Int)
    (run : GenRun) {i : Int} {r : Role} {c : String} {p : Option Int}
    (h : containsMsgCore st.msgs i r c p) :
    containsMsgCore
      (generateMessage sysMsg excl st convId leafNodeId pendingId run).state.msgs
      i r c p := by
  rw [generateMessage]
  dsimp only
  repeat' split
  all_goals first
    | exact h
    | exact containsMsgCore_appendMsgStore h

/-- C5: `sendMessage` returns `false` and performs no side effect (state
unchanged, nothing published) whenever the text trims to nothing or a
session is already active for the target conversation; otherwise the
operation proceeds and the new user message (id `now`, the given content,
parented at the resolved leaf) is in the store of the resulting state. -/
theorem sendMessage_rejects_blank_or_busy
    (sysMsg : String) (excl : Bool) (st : AppState) (convId : Option String)
    (leafNodeId : Option Int) (content : String)
    (extra : Option (List MessageExtra)) (now : Int) (freshConvId : String)
    (rootId pendingId : Int) (run : GenRun) :
    (isGenerating st (convId.getD "") = true ∨ (jsTrim content).length = 0 →
      sendMessage sysMsg excl st convId leafNodeId content extra now
          freshConvId rootId pendingId run =
        { accepted := false, state := st, published := [] }) ∧
    (isGenerating st (convId.getD "") = false → (jsTrim content).length ≠ 0 →
      ∃ leaf, containsMsgCore
        (sendMessage sysMsg excl st convId leafNodeId content extra now
            freshConvId rootId pendingId run).state.msgs
        now .user content (some leaf)) := by
  constructor
  · intro h
    have hc : (isGenerating st (convId.getD "") ||
        decide ((jsTrim content).length = 0)) = true := by
      rcases h with h | h
      · simp [h]
      · simp [h]
    rw [sendMessage, if_pos hc]
  · intro hg hc
    have hcond : ¬ ((isGenerating st (convId.getD "") ||
        decide ((jsTrim content).length = 0)) = true) := by
      simp [hg, hc]
    rw [sendMessage, if_neg hcond]
    by_cases hnew : (convId.isNone || decide ((convId.getD "").length = 0) ||
        leafNodeId.isNone) = true
    · refine ⟨rootId, ?_⟩
      dsimp only
      rw [if_pos hnew]
      split <;>
        exact generateMessage_preserves_core _ _ _ _ _ _ _
          (containsMsgCore_self _ _ _)
    · refine ⟨leafNodeId.getD (-1), ?_⟩
      dsimp only
      rw [if_neg hnew]
      split <;>
        exact generateMessage_preserves_core _ _ _ _ _ _ _
          (containsMsgCore_self _ _ _)

theorem sendMessage_rejects_blank_or_busy_witness :
    (sendMessage "" false wBadState (some "c") (some 1) "   " none 5 "f" 6 7
        { chunks := [], ending := .closed } =
      { accepted := false, state := wBadState, published := [] }) ∧
    ∃ leaf, containsMsgCore
      (sendMessage "" false wBadState (some "c") (some 1) "hello" none 5 "f" 6 7
          { chunks := [], ending := .closed }).state.msgs
      5 .user "hello" (some leaf) :=
  ⟨(sendMessage_rejects_blank_or_busy "" false wBadState (some "c") (some 1)
      "   " none 5 "f" 6 7 { chunks := [], ending := .closed }).1
      (.inr (by decide)),
   (sendMessage_rejects_blank_or_busy "" false wBadState (some "c") (some 1)
      "hello" none 5 "f" 6 7 { chunks := [], ending := .closed }).2
      (by decide) (by decide)⟩

/-- The user message appended by `sendMessage` before the generation starts. -/
def userMsgOf (cid : String) (leaf now : Int) (content : String)
    (extra : Option (List MessageExtra)) : Message :=
  { id := now, convId := cid, type := .text, timestamp := now, role := .user,
    content := content, extra := extra, parent := some leaf, children := [] }

/-- C10: when `sendMessage` has appended the user message and the
generation session then throws (in particular on a transport error), the
call returns `false` while the appended user message stays in the store —
there is no rollback of the user turn. -/
theorem sendMessage_no_rollback_on_failure
    (sysMsg : String) (excl : Bool) (st : AppState) (cid : String)
    (leaf : Int) (content : String) (extra : Option (List MessageExtra))
    (now : Int) (freshConvId : String) (rootId pendingId : Int) (run : GenRun)
    (hgen : isGenerating st cid = false)
    (hlen : (jsTrim content).length ≠ 0)
    (hcid : cid.length ≠ 0)
    (hfail : (generateMessage sysMsg excl
        { convs := st.convs,
          msgs := appendMsgStore st.msgs (userMsgOf cid leaf now content extra)
                    leaf,
          pending := st.pending } cid now pendingId run).thrown.isSome = true) :
    (sendMessage sysMsg excl st (some cid) (some leaf) content extra now
        freshConvId rootId pendingId run).accepted = false ∧
    containsMsgCore
      (sendMessage sysMsg excl st (some cid) (some leaf) content extra now
          freshConvId rootId pendingId run).state.msgs
      now .user content (some leaf) := by
  have hcond : ¬ ((isGenerating st ((some cid).getD "") ||
      decide ((jsTrim content).length = 0)) = true) := by
    simp [hgen, hlen]
  rw [sendMessage, if_neg hcond]
  dsimp only
  rw [if_neg (by simp [hcid])]
  simp only [Option.getD_some]
  obtain ⟨e, he⟩ := Option.isSome_iff_exists.mp hfail
  rw [userMsgOf] at he
  rw [he]
  exact ⟨rfl, generateMessage_preserves_core _ _ _ _ _ _ _
    (containsMsgCore_self _ _ _)⟩

/-- A one-conversation state holding only the synthetic root. -/
def wRootBare : Message :=
  { id := 0, convId := "c", type := .root, timestamp := 0, role := .root,
    content := "", parent := none, children := [] }

def wBareState : AppState :=
  { convs := [{ id := "c", name := "c", currNode := 0 }],
    msgs := [wRootBare], pending := [] }

theorem sendMessage_no_rollback_on_failure_witness :
    (sendMessage "" false wBareState (some "c") (some 0) "hello" none 5 "f" 6 7
        { chunks := [], ending := .transportFail "boom" }).accepted = false ∧
    containsMsgCore
      (sendMessage "" false wBareState (some "c") (some 0) "hello" none 5 "f"
          6 7 { chunks := [], ending := .transportFail "boom" }).state.msgs
      5 .user "hello" (some 0) :=
  sendMessage_no_rollback_on_failure "" false wBareState "c" 0 "hello" none 5
    "f" 6 7 { chunks := [], ending := .transportFail "boom" }
    (by decide) (by decide) (by decide) (by decide)

/-- Length of the accumulated draft content (`null` counts as length 0). -/
def draftLen (p : PendingMsg) : Nat := (p.content.getD "").length

/-- One publication step of a generation session never loses progress: the
accumulated content length does not shrink and content that has become
non-null stays non-null. -/
def DraftStep (a b : PendingMsg) : Prop :=
  draftLen a ≤ draftLen b ∧ (a.content.isSome = true → b.content.isSome = true)

instance : IsTrans PendingMsg DraftStep :=
  ⟨fun _ _ _ h1 h2 => ⟨le_trans h1.1 h2.1, fun h => h2.2 (h1.2 h)⟩⟩

theorem applyChunk_content_eq (p : PendingMsg) (c : ChunkDelta) :
    (applyChunk p c).content =
      match c.content with
      | some added =>
          if added ≠ "" then some (p.content.getD "" ++ added) else p.content
      | none => p.content := by
  rcases c with ⟨er, co, mo, ti⟩
  cases co <;> cases mo <;> cases ti <;> simp only [applyChunk] <;>
    split_ifs <;> rfl

theorem applyChunk_step (p : PendingMsg) (c : ChunkDelta) :
    DraftStep p (applyChunk p c) := by
  have hc := applyChunk_content_eq p c
  rcases hco : c.content with _ | added <;> rw [hco] at hc <;> dsimp only at hc
  · exact ⟨by rw [draftLen, draftLen, hc], fun h => by rw [hc]; exact h⟩
  · by_cases ha : added ≠ ""
    · rw [if_pos ha] at hc
      constructor
      · rw [draftLen, draftLen, hc, Option.getD_some, String.length_append]
        exact Nat.le_add_right _ _
      · intro _; rw [hc]; rfl
    · rw [if_neg ha] at hc
      exact ⟨by rw [draftLen, draftLen, hc], fun h => by rw [hc]; exact h⟩

theorem consumeChunks_chain (p : PendingMsg) (cs : List ChunkDelta) :
    List.Chain' DraftStep (p :: (consumeChunks p cs).1) := by
  induction cs generalizing p with
  | nil => simp [consumeChunks]
  | cons c rest ih =>
      rw [consumeChunks]
      rcases hce : c.error with _ | em
      · dsimp only
        exact List.chain'_cons.mpr ⟨applyChunk_step p c, ih (applyChunk p c)⟩
      · simp

theorem consumeChunks_last (p : PendingMsg) (cs : List ChunkDelta)
    {q : PendingMsg} (h : (consumeChunks p cs).2 = .ok q) :
    (p :: (consumeChunks p cs).1).getLast? = some q := by
  induction cs generalizing p with
  | nil =>
      rw [consumeChunks] at h
      cases h
      rfl
  | cons c rest ih =>
      rw [consumeChunks] at h ⊢
      cases hce : c.error with
      | none =>
          rw [hce] at h
          dsimp only at h ⊢
          rw [List.getLast?_cons_cons]
          exact ih (applyChunk p c) h
      | some em =>
          rw [hce] at h
          dsimp only at h
          cases h

theorem applyChunk_role_eq (p : PendingMsg) (c : ChunkDelta) :
    (applyChunk p c).role = p.role := by
  rcases c with ⟨er, co, mo, ti⟩
  cases co <;> cases mo <;> cases ti <;> simp only [applyChunk] <;>
    split_ifs <;> rfl

theorem applyChunk_parent_eq (p : PendingMsg) (c : ChunkDelta) :
    (applyChunk p c).parent = p.parent := by
  rcases c with ⟨er, co, mo, ti⟩
  cases co <;> cases mo <;> cases ti <;> simp only [applyChunk] <;>
    split_ifs <;> rfl

/-- The streaming loop only grows the accumulated content: the final draft
keeps the seeded role and parent. -/
theorem consumeChunks_ok_role_parent (p : PendingMsg) (cs : List ChunkDelta)
    {q : PendingMsg} (h : (consumeChunks p cs).2 = .ok q) :
    q.role = p.role ∧ q.parent = p.parent := by
  induction cs generalizing p with
  | nil =>
      rw [consumeChunks] at h
      cases h
      exact ⟨rfl, rfl⟩
  | cons c rest ih =>
      rw [consumeChunks] at h
      cases hce : c.error with
      | none =>
          rw [hce] at h
          dsimp only at h
          obtain ⟨h1, h2⟩ := ih (applyChunk p c) h
          exact ⟨h1.trans (applyChunk_role_eq p c),
                 h2.trans (applyChunk_parent_eq p c)⟩
      | some em =>
          rw [hce] at h
          dsimp only at h
          cases h

theorem appendMsgStore_length (msgs : List Message) (msg : Message)
    (afterId : Int) : (appendMsgStore msgs msg afterId).length = msgs.length + 1 := by
  simp [appendMsgStore]

theorem appendMsgStore_getLast (msgs : List Message) (msg : Message)
    (afterId : Int) : (appendMsgStore msgs msg afterId).getLast? = some msg := by
  rw [appendMsgStore]
  exact List.getLast?_concat _

/-- C7: within one generation session the published draft states are
pairwise monotone — the accumulated content length never decreases along
the published sequence and content never reverts to null once non-null —
and the Graph mutation happens only at termination: either the store is
unchanged, or exactly the final published draft state (with non-null
content) is appended under the attach leaf. -/
theorem generateMessage_published_monotone (sysMsg : String) (excl : Bool)
    (st : AppState) (convId : String) (leafNodeId pendingId : Int)
    (run : GenRun) :
    List.Pairwise DraftStep
      (generateMessage sysMsg excl st convId leafNodeId pendingId run).published ∧
    ((generateMessage sysMsg excl st convId leafNodeId pendingId run).state = st ∨
      ∃ pL, (generateMessage sysMsg excl st convId leafNodeId pendingId
          run).published.getLast? = some pL ∧
        pL.content.isSome = true ∧
        (generateMessage sysMsg excl st convId leafNodeId pendingId run).state =
          { st with msgs := appendMsgStore st.msgs pL.asMessage leafNodeId }) := by
  rw [generateMessage]
  dsimp only
  split
  · exact ⟨List.Pairwise.nil, .inl rfl⟩
  · split
    · exact ⟨List.Pairwise.nil, .inl rfl⟩
    · split
      · exact ⟨List.pairwise_singleton _ _, .inl rfl⟩
      · split
        · exact ⟨List.chain'_iff_pairwise.mp (consumeChunks_chain _ _), .inl rfl⟩
        · rename_i pF heq
          split
          · exact ⟨List.chain'_iff_pairwise.mp (consumeChunks_chain _ _), .inl rfl⟩
          · split
            · rename_i hs
              refine ⟨List.chain'_iff_pairwise.mp (consumeChunks_chain _ _),
                .inr ⟨pF, consumeChunks_last _ _ heq, ?_, rfl⟩⟩
              rw [hs]
              rfl
            · exact ⟨List.chain'_iff_pairwise.mp (consumeChunks_chain _ _), .inl rfl⟩

/-- C1: a generation session cancelled by the caller (`stopGenerating`
propagating to the stream as an abort) commits exactly one new assistant
message under the attach leaf whose content equals the content accumulated
at the moment the cancellation took effect — the final draft state — and
appends nothing when the draft content is still null. -/
theorem generateMessage_abort_commits_accumulated
    (sysMsg : String) (excl : Bool) (st : AppState) (convId : String)
    (leafNodeId pendingId : Int) (chunks : List ChunkDelta)
    (pub : List PendingMsg) (pF : PendingMsg)
    (hgen : isGenerating st convId = false)
    (hconv : (st.convs.find? fun c => c.id = convId).isSome = true)
    (hprompt : ∃ pm, appPromptMessages sysMsg excl
        (filterByLeafNodeId (convMessages st convId) leafNodeId false) = .ok pm)
    (hconsume : consumeChunks (initialPending convId leafNodeId pendingId)
        chunks = (pub, .ok pF)) :
    (∀ s, pF.content = some s →
      (generateMessage sysMsg excl st convId leafNodeId pendingId
          { chunks := chunks, ending := .aborted }).state.msgs =
        appendMsgStore st.msgs pF.asMessage leafNodeId ∧
      pF.asMessage.content = s ∧
      pF.asMessage.role = .assistant ∧
      pF.asMessage.parent = some leafNodeId ∧
      (generateMessage sysMsg excl st convId leafNodeId pendingId
          { chunks := chunks, ending := .aborted }).state.msgs.length =
        st.msgs.length + 1 ∧
      (generateMessage sysMsg excl st convId leafNodeId pendingId
          { chunks := chunks, ending := .aborted }).state.msgs.getLast? =
        some pF.asMessage ∧
      (generateMessage sysMsg excl st convId leafNodeId pendingId
          { chunks := chunks, ending := .aborted }).published.getLast? =
        some pF ∧
      (generateMessage sysMsg excl st convId leafNodeId pendingId
          { chunks := chunks, ending := .aborted }).thrown = none) ∧
    (pF.content = none →
      (generateMessage sysMsg excl st convId leafNodeId pendingId
          { chunks := chunks, ending := .aborted }).state = st ∧
      (generateMessage sysMsg excl st convId leafNodeId pendingId
          { chunks := chunks, ending := .aborted }).thrown = none) := by
  obtain ⟨pm, hpm⟩ := hprompt
  obtain ⟨c, hc⟩ := Option.isSome_iff_exists.mp hconv
  have hrp := consumeChunks_ok_role_parent
    (initialPending convId leafNodeId pendingId) chunks (q := pF)
    (by rw [hconsume])
  have hlast := consumeChunks_last
    (initialPending convId leafNodeId pendingId) chunks (q := pF)
    (by rw [hconsume])
  rw [generateMessage, if_neg (by simp [hgen]), hc]
  dsimp only
  rw [hpm]
  dsimp only
  rw [hconsume]
  dsimp only
  constructor
  · intro s hs
    rw [hs]
    dsimp only
    refine ⟨rfl, ?_, ?_, ?_, appendMsgStore_length _ _ _,
        appendMsgStore_getLast _ _ _, ?_, rfl⟩
    · rw [PendingMsg.asMessage, hs]
      rfl
    · rw [PendingMsg.asMessage]
      exact hrp.1
    · rw [PendingMsg.asMessage]
      exact hrp.2
    · rw [← hlast, hconsume]
  · intro hn
    rw [hn]
    exact ⟨rfl, rfl⟩

def wChunk1 : ChunkDelta := { content := some "Hi" }

def wChunk2 : ChunkDelta := { content := some " there" }

def wFinal : PendingMsg :=
  { initialPending "c" 0 9 with content := some "Hi there" }

theorem generateMessage_abort_commits_accumulated_witness :
    (generateMessage "" false wBareState "c" 0 9
        { chunks := [wChunk1, wChunk2], ending := .aborted }).state.msgs =
      appendMsgStore wBareState.msgs wFinal.asMessage 0 ∧
    wFinal.asMessage.content = "Hi there" ∧
    wFinal.asMessage.role = .assistant ∧
    wFinal.asMessage.parent = some 0 ∧
    (generateMessage "" false wBareState "c" 0 9
        { chunks := [wChunk1, wChunk2], ending := .aborted }).state.msgs.length =
      wBareState.msgs.length + 1 ∧
    (generateMessage "" false wBareState "c" 0 9
        { chunks := [wChunk1, wChunk2], ending := .aborted }).state.msgs.getLast? =
      some wFinal.asMessage ∧
    (generateMessage "" false wBareState "c" 0 9
        { chunks := [wChunk1, wChunk2], ending := .aborted }).published.getLast? =
      some wFinal ∧
    (generateMessage "" false wBareState "c" 0 9
        { chunks := [wChunk1, wChunk2], ending := .aborted }).thrown = none :=
  (generateMessage_abort_commits_accumulated "" false wBareState "c" 0 9
      [wChunk1, wChunk2]
      [{ initialPending "c" 0 9 with content := some "Hi" }, wFinal] wFinal
      (by decide) (by decide) ⟨[], rfl⟩ rfl).1 "Hi there" rfl

/-- C2: a generation session that terminates through a transport or
protocol error not initiated by the caller (an error frame in the stream,
or a transport failure reported while streaming) appends nothing to the
store — the state is completely unchanged — and rethrows the error to the
caller. -/
theorem generateMessage_failure_discards
    (sysMsg : String) (excl : Bool) (st : AppState) (convId : String)
    (leafNodeId pendingId : Int) (run : GenRun) (e : String)
    (hgen : isGenerating st convId = false)
    (hconv : (st.convs.find? fun c => c.id = convId).isSome = true)
    (hprompt : ∃ pm, appPromptMessages sysMsg excl
        (filterByLeafNodeId (convMessages st convId) leafNodeId false) = .ok pm)
    (hfail : (consumeChunks (initialPending convId leafNodeId pendingId)
          run.chunks).2 = .error e ∨
      ((∃ pF, (consumeChunks (initialPending convId leafNodeId pendingId)
          run.chunks).2 = .ok pF) ∧ run.ending = .transportFail e)) :
    (generateMessage sysMsg excl st convId leafNodeId pendingId run).state = st ∧
    (generateMessage sysMsg excl st convId leafNodeId pendingId run).thrown =
      some e := by
  obtain ⟨pm, hpm⟩ := hprompt
  obtain ⟨c, hc⟩ := Option.isSome_iff_exists.mp hconv
  rw [generateMessage, if_neg (by simp [hgen]), hc]
  dsimp only
  rw [hpm]
  dsimp only
  rcases hfail with herr | ⟨⟨pF, hok⟩, hend⟩
  · rw [herr]
    exact ⟨rfl, rfl⟩
  · rw [hok]
    dsimp only
    rw [hend]
    exact ⟨rfl, rfl⟩

theorem generateMessage_failure_discards_witness :
    (generateMessage "" false wBareState "c" 0 9
        { chunks := [wChunk1], ending := .transportFail "boom" }).state =
      wBareState ∧
    (generateMessage "" false wBareState "c" 0 9
        { chunks := [wChunk1], ending := .transportFail "boom" }).thrown =
      some "boom" :=
  generateMessage_failure_discards "" false wBareState "c" 0 9
    { chunks := [wChunk1], ending := .transportFail "boom" } "boom"
    (by decide) (by decide) ⟨[], rfl⟩
    (.inr ⟨⟨{ initialPending "c" 0 9 with content := some "Hi" }, rfl⟩,
      rfl⟩)

/-- A message set with a dangling parent: the only non-root node points at
a parent id absent from the set. -/
def dRoot : Message :=
  { id := 0, convId := "c", type := .root, timestamp := 0, role := .root,
    content := "", parent := none, children := [2] }

def dOrphan : Message :=
  { id := 2, convId := "c", type := .text, timestamp := 2, role := .user,
    content := "hi", parent := some 99, children := [] }

/-- C9 counterexample: on a message set containing a non-root node whose
parent id is absent (a dangling parent), display-path computation does not
fail — it catches the condition (`if (!parentNode) continue`) and returns a
result, here the empty display list, silently dropping the node. -/
theorem getListMessageDisplay_dangling_parent_recovers :
    getListMessageDisplay [dRoot, dOrphan] (-1) = [] ∧
    dOrphan ∈ [dRoot, dOrphan] ∧
    dOrphan.type ≠ .root ∧
    findById [dRoot, dOrphan] (dOrphan.parent.getD (-1)) = none := by
  refine ⟨?_, by decide, by decide, ?_⟩ <;> rfl

/-- C9 amended: display-path computation never fails fast on a dangling
parent; every entry it returns has a parent present in the message set (a
node whose parent id is absent is skipped and the computation recovers
with the remaining entries). -/
theorem getListMessageDisplay_skips_dangling (msgs : List Message)
    (leafNodeId : Int) (d : MessageDisplay)
    (hd : d ∈ getListMessageDisplay msgs leafNodeId) :
    ∃ parentNode, findById msgs (d.msg.parent.getD (-1)) = some parentNode ∧
      d.msg.type ≠ .root := by
  rw [getListMessageDisplay] at hd
  obtain ⟨a, _, hfa⟩ := List.mem_filterMap.mp hd
  cases hpn : findById msgs (a.parent.getD (-1)) with
  | none => rw [hpn] at hfa; cases hfa
  | some parentNode =>
      rw [hpn] at hfa
      dsimp only at hfa
      by_cases ht : a.type ≠ .root
      · rw [if_pos ht] at hfa
        cases hfa
        exact ⟨parentNode, hpn, ht⟩
      · rw [if_neg ht] at hfa
        cases hfa

/-- The single display entry of the `[wRoot, wBadMsg]` conversation. -/
def wDisplay : MessageDisplay :=
  { msg := wBadMsg, siblingLeafNodeIds := [1], siblingCurrIdx := 0 }

theorem getListMessageDisplay_skips_dangling_witness :
    ∃ parentNode,
      findById [wRoot, wBadMsg] (wDisplay.msg.parent.getD (-1)) =
        some parentNode ∧
      wDisplay.msg.type ≠ .root :=
  getListMessageDisplay_skips_dangling [wRoot, wBadMsg] (-1) wDisplay
    (by decide)

/-- The `findLeafNode` loop of `getListMessageDisplay` computes exactly the
last-child descent described by the spec. -/
theorem findLeafNodeAux_eq_descent (msgs : List Message) :
    ∀ (fuel : Nat) (om : Option Message),
      findLeafNodeAux msgs fuel om = lastChildDescent msgs fuel om := by
  intro fuel
  induction fuel with
  | zero => intro om; cases om <;> rfl
  | succ n ih =>
      intro om
      cases om with
      | none => rfl
      | some m =>
          rw [findLeafNodeAux, lastChildDescent]
          by_cases hch : m.children = []
          · rw [if_pos hch, hch]
            rfl
          · rw [if_neg hch]
            obtain ⟨c, hc⟩ : ∃ c, m.children.getLast? = some c := by
              cases hl : m.children.getLast? with
              | none => exact absurd (List.getLast?_eq_none_iff.mp hl) hch
              | some c => exact ⟨c, rfl⟩
            rw [hc]
            dsimp only
            rw [Option.getD_some]
            exact ih (findById msgs c)

/-- Modelled from the spec: the deepest tip of the branch rooted at a given
id — repeatedly follow the last child until a childless node, `-1` when the
id is absent. -/
def lastChildTipId (msgs : List Message) (i : Int) : Int :=
  match lastChildDescent msgs (msgs.length + 1) (findById msgs i) with
  | some m => m.id
  | none => -1

theorem findLeafNode_eq_tip (msgs : List Message) (i : Int) :
    findLeafNode msgs i = lastChildTipId msgs i := by
  rw [findLeafNode, lastChildTipId, findLeafNodeAux_eq_descent]

theorem walkUp_cons (msgs : List Message) (fuel : Nat) (lf : Message) :
    ∃ rest, walkUp msgs fuel (some lf) = lf :: rest := by
  cases fuel with
  | zero => exact ⟨[], rfl⟩
  | succ n =>
      rw [walkUp]
      cases lf.parent with
      | none => exact ⟨[], rfl⟩
      | some p => exact ⟨_, rfl⟩

theorem filterMap_getLast?_of_last {α β : Type} (f : α → Option β)
    {l : List α} {a : α} {b : β} (hl : l.getLast? = some a)
    (hf : f a = some b) : (l.filterMap f).getLast? = some b := by
  obtain ⟨t, rfl⟩ := List.getLast?_eq_some_iff.mp hl
  rw [List.filterMap_append]
  have : List.filterMap f [a] = [b] := by
    rw [List.filterMap_cons, hf]
    rfl
  rw [this]
  exact List.getLast?_concat _

/-- C6: with the sentinel (or any stale) leaf id, the display path is
deterministic and ends at the node reached from the root by repeatedly
following the last entry of `children` until a childless node; and the
sibling tips of every entry on the path are computed for each sibling id by
the same last-child-following rule. -/
theorem getListMessageDisplay_sentinel_last_child (msgs : List Message)
    (leafNodeId : Int) (r lf : Message)
    (hsent : findById msgs leafNodeId = none)
    (hroot : findRoot msgs = some r)
    (hdesc : lastChildDescent msgs (msgs.length + 1) (some r) = some lf)
    (htype : lf.type ≠ .root)
    (hpar : ∃ pn, findById msgs (lf.parent.getD (-1)) = some pn) :
    (∃ d, (getListMessageDisplay msgs leafNodeId).getLast? = some d ∧
      d.msg = lf) ∧
    (∀ d ∈ getListMessageDisplay msgs leafNodeId, ∀ pn,
      findById msgs (d.msg.parent.getD (-1)) = some pn →
      d.siblingLeafNodeIds = pn.children.map (lastChildTipId msgs)) := by
  obtain ⟨pn, hpn⟩ := hpar
  have hfun : findLeafNode msgs = lastChildTipId msgs :=
    funext (findLeafNode_eq_tip msgs)
  constructor
  · rw [getListMessageDisplay, filterByLeafNodeId]
    simp only [hsent, hroot, hdesc, if_true]
    obtain ⟨rest, hw⟩ := walkUp_cons msgs (msgs.length + 1) lf
    rw [hw]
    refine ⟨{ msg := lf,
              siblingLeafNodeIds := pn.children.map (findLeafNode msgs),
              siblingCurrIdx := jsIndexOf pn.children lf.id },
            filterMap_getLast?_of_last (a := lf) _ ?_ ?_, rfl⟩
    · rw [List.getLast?_reverse]
      rfl
    · rw [hpn]
      dsimp only
      rw [if_pos htype]
  · intro d hd pn2 hpn2
    rw [getListMessageDisplay] at hd
    obtain ⟨a, _, hfa⟩ := List.mem_filterMap.mp hd
    cases hpa : findById msgs (a.parent.getD (-1)) with
    | none => rw [hpa] at hfa; cases hfa
    | some parentNode =>
        rw [hpa] at hfa
        dsimp only at hfa
        by_cases ht : a.type ≠ .root
        · rw [if_pos ht] at hfa
          cases hfa
          dsimp only at hpn2
          rw [hpa] at hpn2
          cases hpn2
          dsimp only
          rw [hfun]
        · rw [if_neg ht] at hfa
          cases hfa

/-- A four-node conversation tree: the root has two children, the first of
which has a deeper subtree. -/
def tRoot : Message :=
  { id := 0, convId := "c", type := .root, timestamp := 0, role := .root,
    content := "", parent := none, children := [1, 3] }

def tA : Message :=
  { id := 1, convId := "c", type := .text, timestamp := 1, role := .user,
    content := "q", parent := some 0, children := [2] }

def tB : Message :=
  { id := 2, convId := "c", type := .text, timestamp := 2, role := .assistant,
    content := "a", parent := some 1, children := [] }

def tC : Message :=
  { id := 3, convId := "c", type := .text, timestamp := 3, role := .user,
    content := "q2", parent := some 0, children := [] }

def tMsgs : List Message := [tRoot, tA, tB, tC]

theorem getListMessageDisplay_sentinel_last_child_witness :
    (∃ d, (getListMessageDisplay tMsgs (-1)).getLast? = some d ∧
      d.msg = tC) ∧
    (∀ d ∈ getListMessageDisplay tMsgs (-1), ∀ pn,
      findById tMsgs (d.msg.parent.getD (-1)) = some pn →
      d.siblingLeafNodeIds = pn.children.map (lastChildTipId tMsgs)) :=
  getListMessageDisplay_sentinel_last_child tMsgs (-1) tRoot tC rfl rfl rfl
    (by decide) ⟨tRoot, rfl⟩
